import Mathlib

/-!
Verification of the Portfolio Ledger & Analytics Engine specification.

The dashboard `data_loader` module itself is not part of the source tree
(only its test suite is), so every modelled function below is a shallow
embedding reconstructed from the specification's wording, marked
`Modelled from the spec:`.  Money amounts, share counts, prices and FX
rates are modelled as exact rationals (ℚ).
-/

/-- Association-list lookup (first match wins), used to model Python dicts. -/
def alget {α : Type} : List (String × α) → String → Option α
  | [], _ => none
  | (k2, v) :: rest, k => if k2 = k then some v else alget rest k

/-- Association-list insert-or-replace, used to model Python dict assignment. -/
def alset {α : Type} : List (String × α) → String → α → List (String × α)
  | [], k, v => [(k, v)]
  | (k2, v2) :: rest, k, v =>
      if k2 = k then (k2, v) :: rest else (k2, v2) :: alset rest k v

/-- Association-list key removal, used to model Python dict deletion. -/
def alerase {α : Type} : List (String × α) → String → List (String × α)
  | [], _ => []
  | (k2, v2) :: rest, k => if k2 = k then alerase rest k else (k2, v2) :: alerase rest k

/-- Modelled from the spec: the kind of a ledger entry (§3 TradeEvent,
`kind ∈ \x7bBuy, Sell, Transfer\x7d`). -/
inductive TradeType
  | buy
  | sell
  | transfer
deriving DecidableEq

/-- Modelled from the spec: one ledger entry (§3 TradeEvent / §6 trade record):
symbol, date, trade type, shares, per-share price in `currency`, and the
optional settlement fields `settlement_jpy`, `settlement_usd` (foreign) and
`fx_rate` whose absence must degrade via the fallback chain of §4.3. -/
structure Trade where
  symbol : String
  date : String
  tradeType : TradeType
  shares : ℚ
  price : ℚ
  currency : String
  settlementJpy : Option ℚ
  settlementForeign : Option ℚ
  fxRate : Option ℚ
deriving DecidableEq

/-- Positional constructor for concrete ledger entries. -/
def mkTrade (sym date : String) (tt : TradeType) (sh pr : ℚ) (cur : String)
    (sj sf fr : Option ℚ) : Trade :=
  ⟨sym, date, tt, sh, pr, cur, sj, sf, fr⟩

/-- Modelled from the spec (§4.3): resolve the JPY amount of a Buy/Sell via the
settlement-priority fallback chain — a JPY settlement is used directly when
present; else a foreign settlement is multiplied by the trade-time FX rate;
else shares × price × trade-time FX rate; and only for legacy records lacking
all settlement/FX fields, shares × price × the *current* global FX rate. -/
def resolveTradeJpy (t : Trade) (fx : String → ℚ) : ℚ :=
  match t.settlementJpy with
  | some s => s
  | none =>
    match t.settlementForeign, t.fxRate with
    | some sf, some r => sf * r
    | _, _ =>
      match t.fxRate with
      | some r => t.shares * t.price * r
      | none => t.shares * t.price * fx t.currency

/-- Modelled from the spec (§3 Lot): a FIFO cost-basis unit
`\x7bshares, cost_basis_per_share_in_jpy\x7d`. -/
structure Lot where
  shares : ℚ
  costPerShare : ℚ
deriving DecidableEq

/-- Total share count of a lot queue. -/
def totalLotShares (lots : List Lot) : ℚ :=
  (lots.map Lot.shares).sum

/-- Total cost basis `Σ lot.shares × lot.cost_per_share` of a lot queue. -/
def totalCostBasis (lots : List Lot) : ℚ :=
  (lots.map (fun l => l.shares * l.costPerShare)).sum

/-- Modelled from the spec (§4.3, Transfer with price == 0): stock split —
`ratio = (existing_shares + incoming_shares) / existing_shares`; every
existing lot gets `shares *= ratio` and `cost_per_share /= ratio`. -/
def splitLots (lots : List Lot) (incoming : ℚ) : List Lot :=
  let existing := totalLotShares lots
  let r := (existing + incoming) / existing
  lots.map (fun l => ⟨l.shares * r, l.costPerShare / r⟩)

/-- Modelled from the spec (§4.3, Sell): consume lots oldest-first,
accumulating `consumed_shares × (proceeds_per_share − lot.cost_per_share)`;
partially-consumed lots retain their remainder; a sell that exceeds all
available lots simply exhausts the queue, the excess silently dropped.
Returns the remaining queue and the realized gain. -/
def consumeLots : List Lot → ℚ → ℚ → List Lot × ℚ
  | [], _, _ => ([], 0)
  | lot :: rest, qty, pps =>
      if qty ≤ 0 then (lot :: rest, 0)
      else if qty < lot.shares then
        (⟨lot.shares - qty, lot.costPerShare⟩ :: rest, qty * (pps - lot.costPerShare))
      else
        let res := consumeLots rest (qty - lot.shares) pps
        (res.1, lot.shares * (pps - lot.costPerShare) + res.2)

/-- Modelled from the spec (§4.3): cash-equivalent symbols (the designated
"cash position" marker, a `.CASH` suffix in the ledger) are excluded from
cost-basis accounting. -/
def isCashSymbol (s : String) : Bool :=
  s.endsWith ".CASH"

/-- State of the cost-basis engine: per-symbol FIFO lot queues and
per-symbol accumulated realized P&L. -/
structure PnlState where
  lots : List (String × List Lot)
  pnl : List (String × ℚ)
deriving DecidableEq

/-- Modelled from the spec (§4.3): process one ledger event through the
FIFO cost-basis engine.  Buy (and Transfer with price > 0) appends a lot with
`cost_per_share = total_jpy_cost / shares`; Transfer with price == 0 is a
stock split when the lot queue is non-empty and a no-op otherwise; Sell
resolves proceeds via the same fallback chain and consumes lots FIFO.
Cash-marker symbols are skipped entirely. -/
def stepPnl (fx : String → ℚ) (st : PnlState) (t : Trade) : PnlState :=
  if isCashSymbol t.symbol then st
  else
    match t.tradeType with
    | TradeType.buy =>
        let cost := resolveTradeJpy t fx
        let queue := (alget st.lots t.symbol).getD []
        ⟨alset st.lots t.symbol (queue ++ [⟨t.shares, cost / t.shares⟩]), st.pnl⟩
    | TradeType.transfer =>
        if t.price = 0 then
          let queue := (alget st.lots t.symbol).getD []
          if queue.isEmpty then st
          else ⟨alset st.lots t.symbol (splitLots queue t.shares), st.pnl⟩
        else
          let cost := resolveTradeJpy t fx
          let queue := (alget st.lots t.symbol).getD []
          ⟨alset st.lots t.symbol (queue ++ [⟨t.shares, cost / t.shares⟩]), st.pnl⟩
    | TradeType.sell =>
        let proceeds := resolveTradeJpy t fx
        let pps := proceeds / t.shares
        let queue := (alget st.lots t.symbol).getD []
        let res := consumeLots queue t.shares pps
        ⟨alset st.lots t.symbol res.1,
         alset st.pnl t.symbol ((alget st.pnl t.symbol).getD 0 + res.2)⟩

/-- Modelled from the spec (§3 RealizedPnL):
`\x7bby_symbol: map[symbol→amount_jpy], total_jpy: amount\x7d`. -/
structure RealizedPnl where
  bySymbol : List (String × ℚ)
  totalJpy : ℚ
deriving DecidableEq

/-- Modelled from the spec (§4.3 Cost-Basis Engine, function
`_compute_realized_pnl` of the dashboard `data_loader`, absent from the
source tree): replay the ordered ledger through per-symbol FIFO lot queues
and report realized P&L by symbol and in total. -/
def _compute_realized_pnl (trades : List Trade) (fx : String → ℚ) : RealizedPnl :=
  let st := trades.foldl (stepPnl fx) ⟨[], []⟩
  ⟨st.pnl, (st.pnl.map (fun p => p.2)).sum⟩

/-- Global FX table used by the test ledgers: JPY at par, USD at 150. -/
def fxTable : String → ℚ :=
  fun c => if c = "USD" then 150 else 1

/-- C1 ledger: Buy 30 @ 100 JPY, Buy 70 @ 200 JPY, Sell 50 @ 180 JPY. -/
def c1Trades : List Trade :=
  [mkTrade "X" "2026-01-01" TradeType.buy 30 100 "JPY" none none none,
   mkTrade "X" "2026-01-10" TradeType.buy 70 200 "JPY" none none none,
   mkTrade "X" "2026-02-01" TradeType.sell 50 180 "JPY" none none none]

/-- C1: FIFO ordering — for the ledger Buy 30 @ 100 JPY, Buy 70 @ 200 JPY,
Sell 50 @ 180 JPY (same symbol), `_compute_realized_pnl` matches the sale
against the oldest lot first and returns a total realized P&L of exactly
30×(180−100) + 20×(180−200) = 2,000 JPY. -/
theorem c1_fifo_oldest_first :
    (_compute_realized_pnl c1Trades fxTable).totalJpy = 2000 ∧
    alget (_compute_realized_pnl c1Trades fxTable).bySymbol "X" = some 2000 := by
  have hx : ("X".endsWith ".CASH") = false := by decide
  have hj : (("JPY" : String) = "USD") = False := by simp
  constructor <;>
    norm_num [c1Trades, _compute_realized_pnl, stepPnl, mkTrade, resolveTradeJpy,
      isCashSymbol, alget, alset, consumeLots, fxTable, RealizedPnl.totalJpy,
      RealizedPnl.bySymbol, hx, hj]

/-- C2 ledger (IXN): two Buys totalling 1,080,000 JPY cost, a 6:1 split
(34 → 204 shares via a zero-price Transfer of 170), then a Sell of all 204
shares with 2,295,000 JPY proceeds. -/
def c2Trades : List Trade :=
  [mkTrade "IXN" "2021-01-01" TradeType.buy 4 300 "USD" (some 120000) none none,
   mkTrade "IXN" "2021-02-24" TradeType.buy 30 306 "USD" (some 960000) none none,
   mkTrade "IXN" "2021-07-19" TradeType.transfer 170 0 "USD" none none none,
   mkTrade "IXN" "2024-03-05" TradeType.sell 204 75 "USD" (some 2295000) none none]

/-- C2: stock-split conservation — a zero-price Transfer split multiplies every
lot's share count by `ratio = (existing + incoming) / existing` and divides its
per-share cost by the same ratio, so `Σ lot.shares × lot.cost_per_share` is
unchanged; consequently the IXN ledger (1,080,000 JPY cost, 6:1 split, sale
for 2,295,000 JPY) realizes exactly 1,215,000 JPY. -/
theorem c2_split_conserves_cost_basis :
    (∀ (lots : List Lot) (incoming : ℚ), 0 < totalLotShares lots → 0 ≤ incoming →
      totalCostBasis (splitLots lots incoming) = totalCostBasis lots) ∧
    alget (_compute_realized_pnl c2Trades fxTable).bySymbol "IXN" = some 1215000 := by
  constructor
  · intro lots incoming hpos hinc
    have hS : totalLotShares lots ≠ 0 := ne_of_gt hpos
    have hr : (totalLotShares lots + incoming) / totalLotShares lots ≠ 0 := by
      have h1 : 0 < totalLotShares lots + incoming := by linarith
      exact div_ne_zero (ne_of_gt h1) hS
    simp only [splitLots, totalCostBasis, List.map_map]
    congr 1
    apply List.map_congr_left
    intro l _
    simp only [Function.comp]
    field_simp
    ring
  · have hi : ("IXN".endsWith ".CASH") = false := by decide
    norm_num [c2Trades, _compute_realized_pnl, stepPnl, mkTrade, resolveTradeJpy,
      isCashSymbol, alget, alset, consumeLots, fxTable, splitLots, totalLotShares,
      RealizedPnl.bySymbol, hi]

/-- C2 witness: the split-conservation component applied to the concrete
pre-split IXN lot queue (4 @ 30,000 and 30 @ 32,000 JPY) with 170 incoming
shares. -/
theorem c2_split_conserves_cost_basis_witness :
    totalCostBasis (splitLots [⟨4, 30000⟩, ⟨30, 32000⟩] 170) =
      totalCostBasis [⟨4, 30000⟩, ⟨30, 32000⟩] :=
  c2_split_conserves_cost_basis.1 [⟨4, 30000⟩, ⟨30, 32000⟩] 170
    (by norm_num [totalLotShares]) (by norm_num)

/-- C3 ledger (a): Buy and Sell both carrying a direct JPY settlement field. -/
def c3aTrades : List Trade :=
  [mkTrade "VTI" "2021-01-01" TradeType.buy 100 200 "USD" (some 2100000) none none,
   mkTrade "VTI" "2024-01-01" TradeType.sell 100 250 "USD" (some 3700000) none none]

/-- C3 ledger (b): foreign-currency settlement plus trade-time FX rate. -/
def c3bTrades : List Trade :=
  [mkTrade "AAPL" "2021-01-01" TradeType.buy 10 200 "USD" none (some 2010) (some 105),
   mkTrade "AAPL" "2024-01-01" TradeType.sell 10 250 "USD" none (some 2490) (some 150)]

/-- C3 ledger (c): no settlement fields, trade-time FX rate only. -/
def c3cTrades : List Trade :=
  [mkTrade "VTI" "2021-01-01" TradeType.buy 10 200 "USD" none none (some 105),
   mkTrade "VTI" "2024-01-01" TradeType.sell 10 250 "USD" none none (some 150)]

/-- C3 ledger (d): legacy records lacking all settlement/FX fields. -/
def c3dTrades : List Trade :=
  [mkTrade "X" "2021-01-01" TradeType.buy 10 100 "USD" none none none,
   mkTrade "X" "2024-01-01" TradeType.sell 10 120 "USD" none none none]

/-- C3: settlement-priority chain — the engine resolves each Buy/Sell JPY
amount by: JPY settlement used directly when present; else foreign settlement
× trade-time FX rate; else shares × price × trade-time FX rate; else (legacy
records with no settlement/FX fields) shares × price × current global FX rate.
Stated on the resolver the engine uses plus four end-to-end ledgers, one per
tier: direct JPY settlements give 3,700,000 − 2,100,000 = 1,600,000; foreign
settlements give 2490×150 − 2010×105 = 162,450; trade-time FX gives
10×250×150 − 10×200×105 = 165,000; the legacy fallback at the global USD rate
150 gives 10×(120−100)×150 = 30,000. -/
theorem c3_settlement_priority_chain :
    (∀ (t : Trade) (fx : String → ℚ) (v : ℚ),
      t.settlementJpy = some v → resolveTradeJpy t fx = v) ∧
    (∀ (t : Trade) (fx : String → ℚ) (sf r : ℚ),
      t.settlementJpy = none → t.settlementForeign = some sf → t.fxRate = some r →
      resolveTradeJpy t fx = sf * r) ∧
    (∀ (t : Trade) (fx : String → ℚ) (r : ℚ),
      t.settlementJpy = none → t.settlementForeign = none → t.fxRate = some r →
      resolveTradeJpy t fx = t.shares * t.price * r) ∧
    (∀ (t : Trade) (fx : String → ℚ),
      t.settlementJpy = none → t.settlementForeign = none → t.fxRate = none →
      resolveTradeJpy t fx = t.shares * t.price * fx t.currency) ∧
    alget (_compute_realized_pnl c3aTrades fxTable).bySymbol "VTI" = some 1600000 ∧
    alget (_compute_realized_pnl c3bTrades fxTable).bySymbol "AAPL" = some 162450 ∧
    alget (_compute_realized_pnl c3cTrades fxTable).bySymbol "VTI" = some 165000 ∧
    alget (_compute_realized_pnl c3dTrades fxTable).bySymbol "X" = some 30000 := by
  have hv : ("VTI".endsWith ".CASH") = false := by decide
  have ha : ("AAPL".endsWith ".CASH") = false := by decide
  have hx : ("X".endsWith ".CASH") = false := by decide
  refine ⟨?_, ?_, ?_, ?_, ?_, ?_, ?_, ?_⟩
  · intro t fx v h
    simp [resolveTradeJpy, h]
  · intro t fx sf r h1 h2 h3
    simp [resolveTradeJpy, h1, h2, h3]
  · intro t fx r h1 h2 h3
    simp [resolveTradeJpy, h1, h2, h3]
  · intro t fx h1 h2 h3
    simp [resolveTradeJpy, h1, h2, h3]
  all_goals
    norm_num [c3aTrades, c3bTrades, c3cTrades, c3dTrades, _compute_realized_pnl,
      stepPnl, mkTrade, resolveTradeJpy, isCashSymbol, alget, alset, consumeLots,
      fxTable, RealizedPnl.bySymbol, hv, ha, hx]

/-- C3 witness: each resolver tier applied to a concrete trade. -/
theorem c3_settlement_priority_chain_witness :
    resolveTradeJpy (mkTrade "VTI" "2021-01-01" TradeType.buy 100 200 "USD"
        (some 2100000) none none) fxTable = 2100000 ∧
    resolveTradeJpy (mkTrade "AAPL" "2021-01-01" TradeType.buy 10 200 "USD"
        none (some 2010) (some 105)) fxTable = 2010 * 105 ∧
    resolveTradeJpy (mkTrade "VTI" "2021-01-01" TradeType.buy 10 200 "USD"
        none none (some 105)) fxTable = 10 * 200 * 105 ∧
    resolveTradeJpy (mkTrade "X" "2021-01-01" TradeType.buy 10 100 "USD"
        none none none) fxTable = 10 * 100 * fxTable "USD" :=
  ⟨c3_settlement_priority_chain.1 _ fxTable 2100000 rfl,
   c3_settlement_priority_chain.2.1 _ fxTable 2010 105 rfl rfl rfl,
   c3_settlement_priority_chain.2.2.1 _ fxTable 105 rfl rfl rfl,
   c3_settlement_priority_chain.2.2.2.1 _ fxTable rfl rfl rfl⟩

/-- Membership after an association-list insert-or-replace comes from the old
list or is the inserted pair. -/
theorem mem_alset {α : Type} {m : List (String × α)} {k : String} {v : α}
    {p : String × α} (h : p ∈ alset m k v) : p ∈ m ∨ p = (k, v) := by
  induction m with
  | nil =>
    simp only [alset, List.mem_singleton] at h
    exact Or.inr h
  | cons hd tl ih =>
    by_cases hk : hd.1 = k
    · rw [show hd = (hd.1, hd.2) from rfl] at h
      simp only [alset, if_pos hk] at h
      rcases List.mem_cons.mp h with h1 | h1
      · exact Or.inr (by rw [h1, hk])
      · exact Or.inl (List.mem_cons_of_mem _ h1)
    · rw [show hd = (hd.1, hd.2) from rfl] at h
      simp only [alset, if_neg hk] at h
      rcases List.mem_cons.mp h with h1 | h1
      · exact Or.inl (by rw [h1]; exact List.mem_cons_self _ _)
      · rcases ih h1 with h2 | h2
        · exact Or.inl (List.mem_cons_of_mem _ h2)
        · exact Or.inr h2

/-- Membership survives association-list key removal backwards. -/
theorem mem_alerase {α : Type} {m : List (String × α)} {k : String}
    {p : String × α} (h : p ∈ alerase m k) : p ∈ m := by
  induction m with
  | nil => simp [alerase] at h
  | cons hd tl ih =>
    rw [show hd = (hd.1, hd.2) from rfl] at h
    by_cases hk : hd.1 = k
    · simp only [alerase, if_pos hk] at h
      exact List.mem_cons_of_mem _ (ih h)
    · simp only [alerase, if_neg hk] at h
      rcases List.mem_cons.mp h with h1 | h1
      · rw [h1]; exact List.mem_cons_self _ _
      · exact List.mem_cons_of_mem _ (ih h1)

/-- A lot queue of positive lots has a non-negative total share count. -/
theorem totalLotShares_nonneg {lots : List Lot}
    (h : ∀ l ∈ lots, 0 < l.shares) : 0 ≤ totalLotShares lots := by
  induction lots with
  | nil => simp [totalLotShares]
  | cons hd tl ih =>
    have h1 : 0 < hd.shares := h hd (List.mem_cons_self _ _)
    have h2 : 0 ≤ totalLotShares tl := ih (fun l hl => h l (List.mem_cons_of_mem _ hl))
    simp only [totalLotShares, List.map_cons, List.sum_cons]
    have := h2
    simp only [totalLotShares] at this
    linarith

/-- Modelled from the spec (§4.2): apply one event's share delta to the
running `\x7bsymbol→shares\x7d` accumulator — Buy/Transfer add, Sell subtracts
clamped at zero, and a symbol whose holdings drop to zero is removed from the
accumulator (absent, not present with value 0). -/
def applyHolding (cur : List (String × ℚ)) (t : Trade) : List (String × ℚ) :=
  let prev := (alget cur t.symbol).getD 0
  let next :=
    match t.tradeType with
    | TradeType.buy => prev + t.shares
    | TradeType.transfer => prev + t.shares
    | TradeType.sell => max 0 (prev - t.shares)
  if next ≤ 0 then alerase cur t.symbol else alset cur t.symbol next

/-- Modelled from the spec (§4.2 Holdings Reconstructor, function
`_reconstruct_daily_holdings` of the dashboard `data_loader`, absent from the
source tree): replay the ordered events, snapshotting the entire accumulator
under each event's date (later events on the same date overwrite). -/
def _reconstruct_daily_holdings (trades : List Trade) :
    List (String × List (String × ℚ)) :=
  (trades.foldl
    (fun acc t =>
      let cur := applyHolding acc.1 t
      (cur, alset acc.2 t.date cur))
    (([] : List (String × ℚ)), ([] : List (String × List (String × ℚ))))).2

/-- Modelled from the spec (§3 ValuationTable / §4.5): the JPY cash flow of a
trade for the invested-capital running total, `shares × price × fx`. -/
def tradeAmountJpy (t : Trade) (fx : String → ℚ) : ℚ :=
  t.shares * t.price * fx t.currency

/-- Modelled from the spec: one step of the invested-capital running total —
Buy/Transfer contribute, Sell withdraws clamped at zero. -/
def stepInvested (fx : String → ℚ) (acc : ℚ × List (String × ℚ)) (t : Trade) :
    ℚ × List (String × ℚ) :=
  let next :=
    match t.tradeType with
    | TradeType.buy => acc.1 + tradeAmountJpy t fx
    | TradeType.transfer => acc.1 + tradeAmountJpy t fx
    | TradeType.sell => max 0 (acc.1 - tradeAmountJpy t fx)
  (next, alset acc.2 t.date next)

/-- Modelled from the spec (§3 ValuationTable `invested`, function
`_compute_invested_capital` of the dashboard `data_loader`, absent from the
source tree): running sum of Buy/Transfer minus Sell cash flows, clamped at
zero, snapshotted per date. -/
def _compute_invested_capital (trades : List Trade) (fx : String → ℚ) :
    List (String × ℚ) :=
  (trades.foldl (stepInvested fx) ((0 : ℚ), ([] : List (String × ℚ)))).2

/-- Every holdings value produced by one replay step is positive. -/
theorem applyHolding_pos {cur : List (String × ℚ)} {t : Trade}
    (hcur : ∀ p ∈ cur, 0 < p.2) : ∀ p ∈ applyHolding cur t, 0 < p.2 := by
  intro p hp
  simp only [applyHolding] at hp
  split at hp
  · exact hcur p (mem_alerase hp)
  · rcases mem_alset hp with h1 | h1
    · exact hcur p h1
    · rw [h1]
      simpa using lt_of_not_le (by assumption)

/-- Fold invariant: every snapshot ever recorded by the holdings replay holds
only positive share counts. -/
theorem holdingsFold_pos (trades : List Trade) :
    ∀ (cur : List (String × ℚ)) (snaps : List (String × List (String × ℚ))),
      (∀ p ∈ cur, 0 < p.2) →
      (∀ q ∈ snaps, ∀ p ∈ q.2, 0 < p.2) →
      ∀ q ∈ (trades.foldl
          (fun acc t =>
            let cur := applyHolding acc.1 t
            (cur, alset acc.2 t.date cur)) (cur, snaps)).2,
        ∀ p ∈ q.2, 0 < p.2 := by
  induction trades with
  | nil => intro cur snaps hc hs q hq; exact hs q hq
  | cons t rest ih =>
    intro cur snaps hc hs q hq
    refine ih (applyHolding cur t) (alset snaps t.date (applyHolding cur t))
      (applyHolding_pos hc) ?_ q hq
    intro q2 hq2 p hp
    rcases mem_alset hq2 with h1 | h1
    · exact hs q2 h1 p hp
    · rw [h1] at hp
      exact applyHolding_pos hc p hp

/-- Fold invariant: the invested-capital running total stays non-negative. -/
theorem investedFold_nonneg (trades : List Trade) (fx : String → ℚ)
    (htr : ∀ t ∈ trades, 0 ≤ t.shares ∧ 0 ≤ t.price)
    (hfx : ∀ c, 0 ≤ fx c) :
    ∀ (cur : ℚ) (snaps : List (String × ℚ)),
      0 ≤ cur → (∀ p ∈ snaps, 0 ≤ p.2) →
      ∀ p ∈ (trades.foldl (stepInvested fx) (cur, snaps)).2, 0 ≤ p.2 := by
  induction trades with
  | nil => intro cur snaps hc hs p hp; exact hs p hp
  | cons t rest ih =>
    intro cur snaps hc hs p hp
    have hamt : 0 ≤ tradeAmountJpy t fx := by
      have h1 := (htr t (List.mem_cons_self _ _)).1
      have h2 := (htr t (List.mem_cons_self _ _)).2
      have h3 := hfx t.currency
      exact mul_nonneg (mul_nonneg h1 h2) h3
    have hnext : 0 ≤ (stepInvested fx (cur, snaps) t).1 := by
      simp only [stepInvested]
      cases t.tradeType <;> simp <;> linarith
    have hrec := ih (fun t2 ht2 => htr t2 (List.mem_cons_of_mem _ ht2))
    simp only [List.foldl_cons] at hp
    refine hrec (stepInvested fx (cur, snaps) t).1 (stepInvested fx (cur, snaps) t).2
      hnext ?_ p ?_
    · intro p2 hp2
      simp only [stepInvested] at hp2
      rcases mem_alset hp2 with h1 | h1
      · exact hs p2 h1
      · rw [h1]
        simpa only [stepInvested] using hnext
    · simpa only [stepInvested] using hp

/-- C5 ledger (holdings): Buy 5 AAPL, then Sell 10 AAPL (oversized). -/
def c5aTrades : List Trade :=
  [mkTrade "AAPL" "2026-02-16" TradeType.buy 5 100 "USD" none none none,
   mkTrade "AAPL" "2026-02-18" TradeType.sell 10 100 "USD" none none none]

/-- C5 ledger (invested): Buy 10 @ 100 JPY, then Sell 100 @ 200 JPY whose
proceeds exceed the cumulative contributed capital. -/
def c5bTrades : List Trade :=
  [mkTrade "X" "2026-01-01" TradeType.buy 10 100 "JPY" none none none,
   mkTrade "X" "2026-02-01" TradeType.sell 100 200 "JPY" none none none]

/-- C5: non-negativity under oversized sells — every share count stored in any
reconstructed daily snapshot is positive (a symbol clamped to zero is absent,
not present with value 0), every invested-capital value is non-negative for
ledgers with non-negative shares/prices and a non-negative FX table, and on
the concrete oversized-sell ledgers the sold-out symbol is absent from the
sell date's snapshot while invested is clamped to exactly 0. -/
theorem c5_nonnegativity :
    (∀ (trades : List Trade), ∀ q ∈ _reconstruct_daily_holdings trades,
      ∀ p ∈ q.2, 0 < p.2) ∧
    (∀ (trades : List Trade) (fx : String → ℚ),
      (∀ t ∈ trades, 0 ≤ t.shares ∧ 0 ≤ t.price) → (∀ c, 0 ≤ fx c) →
      ∀ p ∈ _compute_invested_capital trades fx, 0 ≤ p.2) ∧
    alget ((alget (_reconstruct_daily_holdings c5aTrades) "2026-02-18").getD [])
      "AAPL" = none ∧
    alget (_compute_invested_capital c5bTrades fxTable) "2026-02-01" = some 0 := by
  refine ⟨?_, ?_, ?_, ?_⟩
  · intro trades q hq p hp
    exact holdingsFold_pos trades [] [] (by simp) (by simp) q hq p hp
  · intro trades fx htr hfx p hp
    exact investedFold_nonneg trades fx htr hfx 0 [] le_rfl (by simp) p hp
  · norm_num [c5aTrades, _reconstruct_daily_holdings, applyHolding, mkTrade,
      alget, alset, alerase]
  · have hj : (("JPY" : String) = "USD") = False := by simp
    have hd : (("2026-01-01" : String) = "2026-02-01") = False := by decide
    norm_num [c5bTrades, _compute_invested_capital, stepInvested, tradeAmountJpy,
      mkTrade, alget, alset, fxTable, hj, hd]

/-- C5 witness: the two universal components applied to the concrete oversized
sell ledgers — the 2026-02-16 snapshot's AAPL entry is positive and the
clamped 2026-02-01 invested value is non-negative. -/
theorem c5_nonnegativity_witness :
    (0 : ℚ) < (("AAPL", (5 : ℚ)) : String × ℚ).2 ∧
    (0 : ℚ) ≤ (("2026-02-01", (0 : ℚ)) : String × ℚ).2 := by
  constructor
  · refine c5_nonnegativity.1 c5aTrades ("2026-02-16", [("AAPL", 5)]) ?_
      ("AAPL", 5) (by simp)
    have hd : (("2026-02-16" : String) = "2026-02-18") = False := by decide
    norm_num [c5aTrades, _reconstruct_daily_holdings, applyHolding, mkTrade,
      alget, alset, alerase, hd]
  · refine c5_nonnegativity.2.1 c5bTrades fxTable ?_ ?_ ("2026-02-01", 0) ?_
    · intro t ht
      simp only [c5bTrades, mkTrade, List.mem_cons, List.not_mem_nil, or_false] at ht
      rcases ht with h | h <;> rw [h] <;> norm_num
    · intro c
      simp only [fxTable]
      split <;> norm_num
    · have hj : (("JPY" : String) = "USD") = False := by simp
      have hd : (("2026-01-01" : String) = "2026-02-01") = False := by decide
      norm_num [c5bTrades, _compute_invested_capital, stepInvested, tradeAmountJpy,
        mkTrade, alget, alset, fxTable, hj, hd]

/-- C6 ledger: a zero-price Transfer arriving with no lots, then a Sell of
those shares. -/
def c6Trades : List Trade :=
  [mkTrade "X" "2021-07-19" TradeType.transfer 100 0 "USD" none none none,
   mkTrade "X" "2024-01-01" TradeType.sell 100 50 "USD" none none none]

/-- C6: oversized sells drop the excess — a Sell whose quantity covers the
whole queue of positive lots exhausts it and realizes only the matched
`Σ lot.shares × (pps − lot.cost_per_share)` (the unmatched remainder adds
nothing); a zero-price Transfer on an empty lot queue is a no-op; and on the
concrete ledger (empty-queue split, then Sell of those shares) the total
realized P&L is 0. -/
theorem c6_oversell_drops_excess :
    (∀ (lots : List Lot) (qty pps : ℚ), (∀ l ∈ lots, 0 < l.shares) →
      totalLotShares lots ≤ qty →
      (consumeLots lots qty pps).1 = [] ∧
      (consumeLots lots qty pps).2 =
        (lots.map (fun l => l.shares * (pps - l.costPerShare))).sum) ∧
    (∀ (fx : String → ℚ) (st : PnlState) (t : Trade),
      t.tradeType = TradeType.transfer → t.price = 0 →
      (alget st.lots t.symbol).getD [] = [] → stepPnl fx st t = st) ∧
    (_compute_realized_pnl c6Trades fxTable).totalJpy = 0 := by
  refine ⟨?_, ?_, ?_⟩
  · intro lots
    induction lots with
    | nil =>
      intro qty pps _ _
      simp [consumeLots]
    | cons lot rest ih =>
      intro qty pps hpos htot
      have h1 : 0 < lot.shares := hpos lot (List.mem_cons_self _ _)
      have hrest : ∀ l ∈ rest, 0 < l.shares :=
        fun l hl => hpos l (List.mem_cons_of_mem _ hl)
      have h2 : 0 ≤ totalLotShares rest := totalLotShares_nonneg hrest
      have htot2 : lot.shares + totalLotShares rest ≤ qty := by
        simpa only [totalLotShares, List.map_cons, List.sum_cons] using htot
      have hq0 : ¬ qty ≤ 0 := by linarith
      have hq1 : ¬ qty < lot.shares := by linarith
      obtain ⟨iha, ihb⟩ := ih (qty - lot.shares) pps hrest (by linarith)
      constructor
      · simp only [consumeLots, if_neg hq0, if_neg hq1]
        exact iha
      · simp only [consumeLots, if_neg hq0, if_neg hq1, List.map_cons, List.sum_cons]
        rw [ihb]
  · intro fx st t ht hp hq
    cases hc : isCashSymbol t.symbol <;>
      simp [stepPnl, hc, ht, hp, hq]
  · have hx : ("X".endsWith ".CASH") = false := by decide
    norm_num [c6Trades, _compute_realized_pnl, stepPnl, mkTrade, resolveTradeJpy,
      isCashSymbol, alget, alset, consumeLots, fxTable, RealizedPnl.totalJpy, hx]

/-- C6 witness: the exhaustion component applied to a concrete one-lot queue
(2 shares @ 10) oversold by a 5-share sell at 7, and the no-op component
applied to a concrete zero-price Transfer on the empty engine state. -/
theorem c6_oversell_drops_excess_witness :
    ((consumeLots [⟨2, 10⟩] 5 7).1 = [] ∧
      (consumeLots [⟨2, 10⟩] 5 7).2 =
        (([⟨2, 10⟩] : List Lot).map (fun l => l.shares * (7 - l.costPerShare))).sum) ∧
    stepPnl fxTable ⟨[], []⟩
        (mkTrade "X" "2021-07-19" TradeType.transfer 100 0 "USD" none none none) =
      ⟨[], []⟩ :=
  ⟨c6_oversell_drops_excess.1 [⟨2, 10⟩] 5 7
      (by intro l hl; simp only [List.mem_singleton] at hl; rw [hl]; norm_num)
      (by norm_num [totalLotShares]),
   c6_oversell_drops_excess.2.1 fxTable ⟨[], []⟩ _ rfl rfl (by simp [alget, mkTrade])⟩

/-- Modelled from the spec (§3 PriceCacheEntry): a date-indexed close-price
table per symbol plus a last-write timestamp, keyed by lookback-period label;
valid while `now − last_write < TTL`. -/
structure CacheEntry where
  table : List (String × List ℚ)
  lastWrite : ℚ
deriving DecidableEq

/-- Modelled from the spec (§3 / §4.4, function `_load_cached_prices` of the
dashboard `data_loader`, absent from the source tree): return the stored table
while the entry is fresh (`now − last_write < TTL`); a missing file or an
entry whose age reached the TTL is a cache miss (`none`), never an error. -/
def _load_cached_prices (entry : Option CacheEntry) (now ttl : ℚ) :
    Option (List (String × List ℚ)) :=
  match entry with
  | none => none
  | some e => if now - e.lastWrite < ttl then some e.table else none

/-- Merge freshly fetched columns into a cached table (fetched wins). -/
def mergeTables (base extra : List (String × List ℚ)) :
    List (String × List ℚ) :=
  extra.foldl (fun acc c => alset acc c.1 c.2) base

/-- Boolean membership test on symbol lists. -/
def strMem (s : String) : List String → Bool
  | [] => false
  | x :: rest => if x = s then true else strMem s rest

/-- `strMem` agrees with list membership. -/
theorem strMem_iff (s : String) (l : List String) : strMem s l = true ↔ s ∈ l := by
  induction l with
  | nil => simp [strMem]
  | cons x rest ih =>
    by_cases h : x = s
    · simp [strMem, h]
    · have h2 : ¬ s = x := fun hh => h hh.symm
      simp [strMem, h, h2, ih]

/-- Restrict a table to the requested symbols. -/
def restrictCols (tbl : List (String × List ℚ)) (symbols : List String) :
    List (String × List ℚ) :=
  tbl.filter (fun c => strMem c.1 symbols)

/-- The requested symbols a cached table does not cover. -/
def missingSymbols (tbl : List (String × List ℚ)) (symbols : List String) :
    List String :=
  symbols.filter (fun s => (alget tbl s).isNone)

/-- Modelled from the spec (§4.4 Price Cache, function `_load_prices` of the
dashboard `data_loader`, absent from the source tree): a fresh cache covering
all requested symbols is returned with zero remote calls; a fresh cache
missing some symbols triggers exactly one remote batch call for the missing
subset alone, merged and restricted to the request; no fresh cache triggers
one batched call for all symbols.  Returns the table and the list of remote
batch calls made. -/
def _load_prices (entry : Option CacheEntry) (now ttl : ℚ) (symbols : List String)
    (remote : List String → List (String × List ℚ)) :
    List (String × List ℚ) × List (List String) :=
  match _load_cached_prices entry now ttl with
  | some tbl =>
      let missing := missingSymbols tbl symbols
      if missing = [] then (tbl, [])
      else (restrictCols (mergeTables tbl (remote missing)) symbols, [missing])
  | none => (remote symbols, [symbols])

/-- Lookup after insert-or-replace: hit on the inserted key, unchanged
elsewhere. -/
theorem alget_alset {α : Type} (m : List (String × α)) (k k2 : String) (v : α) :
    alget (alset m k v) k2 = if k = k2 then some v else alget m k2 := by
  induction m with
  | nil => simp [alget, alset]
  | cons hd tl ih =>
    rw [show hd = (hd.1, hd.2) from rfl]
    by_cases h1 : hd.1 = k
    · simp only [alset, if_pos h1]
      by_cases h2 : k = k2
      · simp [alget, h1, h2]
      · have h3 : ¬ hd.1 = k2 := by rw [h1]; exact h2
        simp [alget, h2, h3]
    · simp only [alset, if_neg h1]
      by_cases h2 : hd.1 = k2
      · have h3 : ¬ k = k2 := by rw [← h2]; exact fun hh => h1 hh.symm
        simp [alget, h2, h3]
      · simp [alget, h2, ih]

/-- A merged table covers a symbol exactly when the base or the extra does. -/
theorem mergeTables_isSome (extra base : List (String × List ℚ)) (s : String) :
    (alget (mergeTables base extra) s).isSome =
      ((alget base s).isSome || (alget extra s).isSome) := by
  induction extra generalizing base with
  | nil => simp [mergeTables, alget]
  | cons hd tl ih =>
    rw [show hd = (hd.1, hd.2) from rfl]
    simp only [mergeTables, List.foldl_cons]
    have h1 := ih (alset base hd.1 hd.2)
    simp only [mergeTables] at h1
    rw [h1, alget_alset]
    by_cases h2 : hd.1 = s
    · simp [alget, h2]
    · simp [alget, h2]

/-- Lookup through a key-uniform filter: for a predicate on keys, filtering
then looking up equals looking up guarded by the predicate at the key. -/
theorem alget_filter_key (p : String → Bool) (tbl : List (String × List ℚ))
    (s : String) :
    alget (tbl.filter (fun c => p c.1)) s = if p s then alget tbl s else none := by
  induction tbl with
  | nil =>
    simp only [List.filter_nil, alget]
    exact (ite_self none).symm
  | cons hd tl ih =>
    rcases hd with ⟨k, v⟩
    by_cases hk : p k = true
    · by_cases hks : k = s
      · have hps : p s = true := by rw [← hks]; exact hk
        simp [List.filter_cons, alget, hk, hks, hps]
      · simp [List.filter_cons, alget, hk, hks, ih]
    · have hkf : p k = false := Bool.eq_false_iff.mpr hk
      by_cases hks : k = s
      · have hps : p s = false := by rw [← hks]; exact hkf
        simp [List.filter_cons, alget, hkf, hks, hps, ih]
      · simp [List.filter_cons, alget, hkf, hks, ih]

/-- Lookup in a restricted table: unchanged for requested symbols, a miss for
the rest. -/
theorem alget_restrictCols (tbl : List (String × List ℚ)) (symbols : List String)
    (s : String) :
    alget (restrictCols tbl symbols) s =
      if strMem s symbols then alget tbl s else none :=
  alget_filter_key (fun k => strMem k symbols) tbl s

/-- C7: price-cache TTL — `_load_cached_prices` returns the stored table while
`now − last_write < TTL`, and returns `None` (a cache miss, never an error)
once the age reaches the TTL or when no cache file exists for the period. -/
theorem c7_cache_ttl_validity :
    (∀ (e : CacheEntry) (now ttl : ℚ), now - e.lastWrite < ttl →
      _load_cached_prices (some e) now ttl = some e.table) ∧
    (∀ (e : CacheEntry) (now ttl : ℚ), ttl ≤ now - e.lastWrite →
      _load_cached_prices (some e) now ttl = none) ∧
    (∀ (now ttl : ℚ), _load_cached_prices none now ttl = none) := by
  refine ⟨?_, ?_, ?_⟩
  · intro e now ttl h
    simp [_load_cached_prices, h]
  · intro e now ttl h
    simp [_load_cached_prices, not_lt.mpr h]
  · intro now ttl
    simp [_load_cached_prices]

/-- C7 witness: a fresh entry (age 1 < TTL 10) is returned, the same entry
with TTL 1 has expired, and an absent file misses. -/
theorem c7_cache_ttl_validity_witness :
    _load_cached_prices (some ⟨[("A", [1])], 0⟩) 1 10 = some [("A", [1])] ∧
    _load_cached_prices (some ⟨[("A", [1])], 0⟩) 1 1 = none ∧
    _load_cached_prices none 1 10 = none :=
  ⟨c7_cache_ttl_validity.1 ⟨[("A", [1])], 0⟩ 1 10 (by norm_num),
   c7_cache_ttl_validity.2.1 ⟨[("A", [1])], 0⟩ 1 1 (by norm_num),
   c7_cache_ttl_validity.2.2 1 10⟩

/-- C4: price-cache correctness of `_load_prices` — with a fresh cached table
covering all requested symbols the table is returned with zero remote calls;
with some symbols missing, exactly one remote batch call is made for the
missing subset alone and the returned table covers every requested symbol
that the cache or the fetch provides. -/
theorem c4_load_prices_cache :
    ∀ (entry : Option CacheEntry) (now ttl : ℚ) (symbols : List String)
      (remote : List String → List (String × List ℚ))
      (tbl : List (String × List ℚ)),
      _load_cached_prices entry now ttl = some tbl →
      ((missingSymbols tbl symbols = [] →
          _load_prices entry now ttl symbols remote = (tbl, [])) ∧
       (missingSymbols tbl symbols ≠ [] →
          (_load_prices entry now ttl symbols remote).2 =
            [missingSymbols tbl symbols] ∧
          (∀ s ∈ symbols,
            ((alget tbl s).isSome ∨
              (alget (remote (missingSymbols tbl symbols)) s).isSome) →
            (alget (_load_prices entry now ttl symbols remote).1 s).isSome))) := by
  intro entry now ttl symbols remote tbl hcache
  constructor
  · intro hm
    simp [_load_prices, hcache, hm]
  · intro hm
    constructor
    · simp [_load_prices, hcache, hm]
    · intro s hs hcov
      have hcontains : strMem s symbols = true := (strMem_iff s symbols).mpr hs
      simp only [_load_prices, hcache, if_neg hm]
      rw [alget_restrictCols, if_pos hcontains, mergeTables_isSome]
      rcases hcov with h | h <;> simp [h]

/-- C4 witness: cache {A, B} — requesting {A, B} makes zero remote calls and
returns the cache; requesting {A, B, C} makes exactly one call for {C} and the
result covers C. -/
theorem c4_load_prices_cache_witness :
    _load_prices (some ⟨[("A", [1]), ("B", [2])], 0⟩) 1 10 ["A", "B"]
        (fun _ => []) = ([("A", [1]), ("B", [2])], []) ∧
    (_load_prices (some ⟨[("A", [1]), ("B", [2])], 0⟩) 1 10 ["A", "B", "C"]
        (fun _ => [("C", [3])])).2 = [["C"]] ∧
    (alget (_load_prices (some ⟨[("A", [1]), ("B", [2])], 0⟩) 1 10 ["A", "B", "C"]
        (fun _ => [("C", [3])])).1 "C").isSome := by
  have hcache : _load_cached_prices (some ⟨[("A", [1]), ("B", [2])], 0⟩) 1 10 =
      some [("A", [1]), ("B", [2])] := by
    norm_num [_load_cached_prices]
  have hmiss0 : missingSymbols [("A", [1]), ("B", [2])] ["A", "B"] = [] := by
    simp [missingSymbols, alget]
  have hmiss1 : missingSymbols [("A", [1]), ("B", [2])] ["A", "B", "C"] = ["C"] := by
    simp [missingSymbols, alget]
  refine ⟨?_, ?_, ?_⟩
  · exact (c4_load_prices_cache _ 1 10 ["A", "B"] (fun _ => []) _ hcache).1 hmiss0
  · have h2 := ((c4_load_prices_cache _ 1 10 ["A", "B", "C"] (fun _ => [("C", [3])]) _
      hcache).2 (by rw [hmiss1]; simp)).1
    rwa [hmiss1] at h2
  · have h3 := ((c4_load_prices_cache _ 1 10 ["A", "B", "C"] (fun _ => [("C", [3])]) _
      hcache).2 (by rw [hmiss1]; simp)).2 "C" (by simp)
    refine h3 (Or.inr ?_)
    simp [alget]

/-- Modelled from the spec (§4.6 Daily change, function `compute_daily_change`
of the dashboard `data_loader`, absent from the source tree): JPY change and
percent change of the last row of the `total` column versus the previous row;
zero-valued result if fewer than 2 rows. -/
def compute_daily_change (totals : List ℚ) : ℚ × ℚ :=
  match totals.reverse with
  | cur :: prev :: _ => (cur - prev, (cur / prev - 1) * 100)
  | _ => (0, 0)

/-- Day-over-day returns of a value series. -/
def dailyReturns (xs : List ℚ) : List ℚ :=
  List.zipWith (fun a b => b / a - 1) xs xs.tail

/-- Arithmetic mean of a series (0 on empty input, since ℚ division by the
zero length yields 0). -/
def meanQ (xs : List ℚ) : ℚ :=
  xs.sum / xs.length

/-- Population variance of a series. -/
def varQ (xs : List ℚ) : ℚ :=
  ((xs.map (fun x => (x - meanQ xs) ^ 2)).sum) / xs.length

/-- Rational square-root approximation (`Nat.sqrt` on the scaled numerator);
the spec's Sharpe formulas need a square root, which ℚ lacks exactly. -/
def ratSqrt (q : ℚ) : ℚ :=
  if q ≤ 0 then 0 else (Nat.sqrt (q.num.toNat * q.den) : ℚ) / q.den

/-- Modelled from the spec (§4.6): the fixed small risk-free-rate constant. -/
def riskFreeRate : ℚ := 1 / 100

/-- Modelled from the spec (§4.6): the Sharpe ratio of one window of daily
returns, `(annual_return − risk_free_rate) / (stdev × √252)`, guarded to 0
for zero volatility. -/
def windowSharpe (rets : List ℚ) : ℚ :=
  let vol := ratSqrt (varQ rets) * ratSqrt 252
  if vol = 0 then 0 else (meanQ rets * 252 - riskFreeRate) / vol

/-- All length-`n` sliding windows of a list, in order. -/
def windowsOf (n : ℕ) : List ℚ → List (List ℚ)
  | [] => []
  | x :: xs =>
      (if n ≤ (x :: xs).length then [(x :: xs).take n] else []) ++ windowsOf n xs

/-- Modelled from the spec (§4.6 Rolling Sharpe, function
`compute_rolling_sharpe` of the dashboard `data_loader`, absent from the
source tree): the Sharpe formula over a sliding window of daily returns;
empty series if the history is shorter than the window. -/
def compute_rolling_sharpe (totals : List ℚ) (window : ℕ) : List ℚ :=
  let rets := dailyReturns totals
  if rets.length < window then []
  else (windowsOf window rets).map windowSharpe

/-- The symbol columns of a valuation table: everything except the `total`
and `invested` columns. -/
def symbolCols (cols : List (String × List ℚ)) : List (String × List ℚ) :=
  cols.filter (fun c =>
    if c.1 = "total" then false else if c.1 = "invested" then false else true)

/-- Observation count available for correlating: rows of the first symbol
column minus one (daily returns consume one row). -/
def nObsOf (cols : List (String × List ℚ)) : ℕ :=
  match cols with
  | [] => 0
  | c :: _ => c.2.length - 1

/-- Pairwise Pearson correlation of two return series, guarded to 0 when
either variance vanishes. -/
def pearsonQ (xs ys : List ℚ) : ℚ :=
  let cov := ((List.zipWith (fun a b => (a - meanQ xs) * (b - meanQ ys)) xs ys).sum)
    / xs.length
  let d := ratSqrt (varQ xs) * ratSqrt (varQ ys)
  if d = 0 then 0 else cov / d

/-- Modelled from the spec (§4.6 Correlation matrix, function
`compute_correlation_matrix` of the dashboard `data_loader`, absent from the
source tree): pairwise Pearson correlation of daily returns across symbol
columns (excluding `total`/`invested`); empty when there are fewer than two
symbol columns or fewer observations than `min_periods`. -/
def compute_correlation_matrix (cols : List (String × List ℚ))
    (minPeriods : ℕ) : List (String × String × ℚ) :=
  let syms := symbolCols cols
  if syms.length < 2 ∨ nObsOf syms < minPeriods then []
  else
    (syms.map (fun a => syms.map (fun b =>
      (a.1, b.1, pearsonQ (dailyReturns a.2) (dailyReturns b.2))))).flatten

/-- A return series is one entry shorter than its value series. -/
theorem dailyReturns_length (xs : List ℚ) :
    (dailyReturns xs).length = xs.length - 1 := by
  simp only [dailyReturns, List.length_zipWith, List.length_tail]
  omega

/-- C8: graceful degradation on empty or too-short input —
`compute_daily_change` returns (0 JPY, 0 %) on an empty table or a single
row; `compute_rolling_sharpe` returns an empty series when the history is
shorter than the window; `compute_correlation_matrix` returns empty with
fewer than two symbol columns or fewer observations than `min_periods`. -/
theorem c8_short_input_degrades :
    compute_daily_change [] = (0, 0) ∧
    (∀ x : ℚ, compute_daily_change [x] = (0, 0)) ∧
    (∀ (totals : List ℚ) (window : ℕ), totals.length < window →
      compute_rolling_sharpe totals window = []) ∧
    (∀ (cols : List (String × List ℚ)) (minPeriods : ℕ),
      (symbolCols cols).length < 2 →
      compute_correlation_matrix cols minPeriods = []) ∧
    (∀ (cols : List (String × List ℚ)) (minPeriods : ℕ),
      nObsOf (symbolCols cols) < minPeriods →
      compute_correlation_matrix cols minPeriods = []) := by
  refine ⟨?_, ?_, ?_, ?_, ?_⟩
  · simp [compute_daily_change]
  · intro x
    simp [compute_daily_change]
  · intro totals window h
    have h2 : (dailyReturns totals).length < window := by
      rw [dailyReturns_length]
      omega
    simp [compute_rolling_sharpe, h2]
  · intro cols minPeriods h
    simp [compute_correlation_matrix, h]
  · intro cols minPeriods h
    simp [compute_correlation_matrix, h]

/-- C8 witness: a single-row table degrades to (0, 0), a 2-row history with a
60-row window gives an empty rolling-Sharpe series, and a one-symbol or
5-row/min-periods-20 table gives an empty correlation matrix. -/
theorem c8_short_input_degrades_witness :
    compute_daily_change [(5 : ℚ)] = (0, 0) ∧
    compute_rolling_sharpe [(1 : ℚ), 2] 60 = [] ∧
    compute_correlation_matrix [("AAA", [(1 : ℚ), 2, 3])] 10 = [] ∧
    compute_correlation_matrix
      [("AAA", [(1 : ℚ), 2, 3]), ("BBB", [(4 : ℚ), 5, 6])] 20 = [] :=
  ⟨c8_short_input_degrades.2.1 5,
   c8_short_input_degrades.2.2.1 [(1 : ℚ), 2] 60 (by simp),
   c8_short_input_degrades.2.2.2.1 [("AAA", [(1 : ℚ), 2, 3])] 10
     (by simp [symbolCols]),
   c8_short_input_degrades.2.2.2.2
     [("AAA", [(1 : ℚ), 2, 3]), ("BBB", [(4 : ℚ), 5, 6])] 20
     (by simp [symbolCols, nObsOf])⟩

/-- Modelled from the spec (§4.6 Benchmark excess return): the result record —
portfolio, benchmark and excess cumulative return percentages. -/
structure BenchmarkExcess where
  portfolioReturnPct : ℚ
  benchmarkReturnPct : ℚ
  excessReturnPct : ℚ
deriving DecidableEq

/-- Cumulative return of a series in percent (last over first, minus one). -/
def returnPct (xs : List ℚ) : ℚ :=
  ((xs.getLast?.getD 0) / (xs.head?.getD 0) - 1) * 100

/-- Modelled from the spec (§4.6 Benchmark excess return, function
`compute_benchmark_excess` of the dashboard `data_loader`, absent from the
source tree): `None` when no benchmark series is supplied or either series is
empty; otherwise the cumulative portfolio return, benchmark return and their
difference in percent. -/
def compute_benchmark_excess (totals : List ℚ) (bench : Option (List ℚ)) :
    Option BenchmarkExcess :=
  match bench with
  | none => none
  | some b =>
      if totals = [] ∨ b = [] then none
      else some ⟨returnPct totals, returnPct b, returnPct totals - returnPct b⟩

/-- C9: `compute_benchmark_excess` returns `None` — not a zero-valued result —
whenever the benchmark series is absent or the portfolio valuation history is
empty (also for an empty benchmark series), and produces the result record
with portfolio, benchmark and excess return percentages exactly when both
inputs are non-empty. -/
theorem c9_benchmark_excess_none :
    (∀ totals : List ℚ, compute_benchmark_excess totals none = none) ∧
    (∀ bench : Option (List ℚ), compute_benchmark_excess [] bench = none) ∧
    (∀ totals : List ℚ, compute_benchmark_excess totals (some []) = none) ∧
    (∀ (totals b : List ℚ), totals ≠ [] → b ≠ [] →
      compute_benchmark_excess totals (some b) =
        some ⟨returnPct totals, returnPct b, returnPct totals - returnPct b⟩) := by
  refine ⟨?_, ?_, ?_, ?_⟩
  · intro totals
    rfl
  · intro bench
    cases bench with
    | none => rfl
    | some b => simp [compute_benchmark_excess]
  · intro totals
    simp [compute_benchmark_excess]
  · intro totals b h1 h2
    simp [compute_benchmark_excess, h1, h2]

/-- C9 witness: a non-empty 2-row portfolio against a non-empty 2-row
benchmark produces the populated result record. -/
theorem c9_benchmark_excess_none_witness :
    compute_benchmark_excess [(1 : ℚ), 2] (some [(1 : ℚ), 3]) =
      some ⟨returnPct [(1 : ℚ), 2], returnPct [(1 : ℚ), 3],
        returnPct [(1 : ℚ), 2] - returnPct [(1 : ℚ), 3]⟩ :=
  c9_benchmark_excess_none.2.2.2 [(1 : ℚ), 2] [(1 : ℚ), 3] (by simp) (by simp)

/-- Insertion into a list sorted by the Boolean comparator `le`. -/
def insertSorted (le : (String × ℚ) → (String × ℚ) → Bool) (x : String × ℚ) :
    List (String × ℚ) → List (String × ℚ)
  | [] => [x]
  | y :: ys => if le x y then x :: y :: ys else y :: insertSorted le x ys

/-- Insertion sort by the Boolean comparator `le`, modelling the ranking of
per-symbol daily changes. -/
def sortPerf (le : (String × ℚ) → (String × ℚ) → Bool) :
    List (String × ℚ) → List (String × ℚ)
  | [] => []
  | x :: xs => insertSorted le x (sortPerf le xs)

/-- Modelled from the spec (§4.6 Top/worst performers): the candidate set —
single-day percentage change per symbol column, restricted to symbols with a
positive price on both the current and the prior day. -/
def eligiblePerformers (cols : List (String × List ℚ)) : List (String × ℚ) :=
  (symbolCols cols).filterMap (fun c =>
    match c.2.reverse with
    | cur :: prev :: _ =>
        if 0 < prev ∧ 0 < cur then some (c.1, (cur / prev - 1) * 100) else none
    | _ => none)

/-- Modelled from the spec (§4.6 Top/worst performers, function
`compute_top_worst_performers` of the dashboard `data_loader`, absent from
the source tree): the candidates ranked descending (top) and ascending
(worst), each capped at `top_n`. -/
def compute_top_worst_performers (cols : List (String × List ℚ)) (topN : ℕ) :
    List (String × ℚ) × List (String × ℚ) :=
  let perf := eligiblePerformers cols
  ((sortPerf (fun a b => decide (b.2 ≤ a.2)) perf).take topN,
   (sortPerf (fun a b => decide (a.2 ≤ b.2)) perf).take topN)

/-- Sorted insertion grows the length by one. -/
theorem length_insertSorted (le : (String × ℚ) → (String × ℚ) → Bool)
    (x : String × ℚ) (l : List (String × ℚ)) :
    (insertSorted le x l).length = l.length + 1 := by
  induction l with
  | nil => rfl
  | cons y ys ih =>
    by_cases h : le x y = true
    · simp [insertSorted, h]
    · have h2 : le x y = false := Bool.eq_false_iff.mpr h
      simp [insertSorted, h2, ih]

/-- Insertion sort preserves length. -/
theorem length_sortPerf (le : (String × ℚ) → (String × ℚ) → Bool)
    (l : List (String × ℚ)) : (sortPerf le l).length = l.length := by
  induction l with
  | nil => rfl
  | cons x xs ih => simp [sortPerf, length_insertSorted, ih]

/-- Members after sorted insertion are the inserted element or old members. -/
theorem mem_insertSorted (le : (String × ℚ) → (String × ℚ) → Bool)
    (x p : String × ℚ) (l : List (String × ℚ))
    (h : p ∈ insertSorted le x l) : p = x ∨ p ∈ l := by
  induction l with
  | nil =>
    simp only [insertSorted, List.mem_singleton] at h
    exact Or.inl h
  | cons y ys ih =>
    by_cases h2 : le x y = true
    · simp only [insertSorted, h2, if_pos] at h
      rcases List.mem_cons.mp h with h3 | h3
      · exact Or.inl h3
      · exact Or.inr h3
    · have h3 : le x y = false := Bool.eq_false_iff.mpr h2
      simp only [insertSorted, h3, Bool.false_eq_true, if_false] at h
      rcases List.mem_cons.mp h with h4 | h4
      · exact Or.inr (by rw [h4]; exact List.mem_cons_self _ _)
      · rcases ih h4 with h5 | h5
        · exact Or.inl h5
        · exact Or.inr (List.mem_cons_of_mem _ h5)

/-- Insertion sort preserves membership (backwards). -/
theorem mem_sortPerf (le : (String × ℚ) → (String × ℚ) → Bool)
    (p : String × ℚ) (l : List (String × ℚ))
    (h : p ∈ sortPerf le l) : p ∈ l := by
  induction l with
  | nil => simp [sortPerf] at h
  | cons x xs ih =>
    rcases mem_insertSorted _ x p (sortPerf le xs) h with h2 | h2
    · rw [h2]; exact List.mem_cons_self _ _
    · exact List.mem_cons_of_mem _ (ih h2)

/-- C10: `compute_top_worst_performers` caps both rankings at
`min(top_n, #eligible candidates)` and draws both from the same candidate
set; for a table with exactly one symbol column that symbol is returned
simultaneously as the single top and the single worst performer. -/
theorem c10_top_worst_capped_same_pool :
    (∀ (cols : List (String × List ℚ)) (topN : ℕ),
      (compute_top_worst_performers cols topN).1.length =
        min topN (eligiblePerformers cols).length ∧
      (compute_top_worst_performers cols topN).2.length =
        min topN (eligiblePerformers cols).length) ∧
    (∀ (cols : List (String × List ℚ)) (topN : ℕ) (p : String × ℚ),
      p ∈ (compute_top_worst_performers cols topN).1 →
      p ∈ eligiblePerformers cols) ∧
    (∀ (cols : List (String × List ℚ)) (topN : ℕ) (p : String × ℚ),
      p ∈ (compute_top_worst_performers cols topN).2 →
      p ∈ eligiblePerformers cols) ∧
    compute_top_worst_performers
        [("AAA", [(100 : ℚ), 110]), ("total", [(100 : ℚ), 110])] 3 =
      ([("AAA", 10)], [("AAA", 10)]) := by
  refine ⟨?_, ?_, ?_, ?_⟩
  · intro cols topN
    constructor <;>
      simp [compute_top_worst_performers, List.length_take, length_sortPerf]
  · intro cols topN p hp
    simp only [compute_top_worst_performers] at hp
    exact mem_sortPerf _ p _ (List.take_subset _ _ hp)
  · intro cols topN p hp
    simp only [compute_top_worst_performers] at hp
    exact mem_sortPerf _ p _ (List.take_subset _ _ hp)
  · have ht : (("AAA" : String) = "total") = False := by simp
    norm_num [compute_top_worst_performers, eligiblePerformers, symbolCols,
      sortPerf, insertSorted, ht]

/-- C10 witness: the single AAA entry of the one-symbol table belongs to both
rankings' shared candidate pool. -/
theorem c10_top_worst_capped_same_pool_witness :
    (("AAA", (10 : ℚ)) : String × ℚ) ∈
      eligiblePerformers [("AAA", [(100 : ℚ), 110]), ("total", [(100 : ℚ), 110])] :=
  c10_top_worst_capped_same_pool.2.1
    [("AAA", [(100 : ℚ), 110]), ("total", [(100 : ℚ), 110])] 3 ("AAA", 10)
    (by rw [c10_top_worst_capped_same_pool.2.2.2]; simp)
